import Mathlib

/-!
Verification of the game-state engine of the React tic-tac-toe app
(`src/tic_tac_toe_frontend/src/App.js`).

The engine state is the triple of React state hooks in `App`:
`history` (a JS array of 9-cell square arrays), `stepNumber` (the cursor
into `history`) and `xIsNext` (the stored turn flag).  The operations are
`handleClick`, `jumpTo`, `handleReset`, `handleUndo`, `handleRedo`, and the
derived values `calculateWinner` / `isDraw`.

A JS squares value is modelled by `Board`: `cells` are the 9 array
elements at indices 0..8, and `extra` records writes at out-of-range
indices (the JS assignment `squares[i] = v` at `i < 0` stores an object
property, at `i > 8` it extends the array; both read back via
`squares[i]` and are otherwise invisible to the 9 rendered cells).
`Array.prototype.slice` copies array elements but not negative-index
properties, which `jsCopy` reproduces.
-/

inductive Player
  | X
  | O
deriving DecidableEq

/-- A JS squares array: the 9 cells plus any out-of-range writes
(newest first, as an association list). -/
structure Board where
  cells : List (Option Player)
  extra : List (Int × Player)
deriving DecidableEq

/-- Read `squares[n]` for an in-range index `n` in 0..8 (JS `undefined`
for a missing element is identified with the empty cell `none`). -/
def boardGet (b : Board) (n : Nat) : Option Player :=
  b.cells.getD n none

/-- Read `squares[i]` for an arbitrary integer index, as JS does:
in-range reads hit the 9 cells, anything else reads a stored
out-of-range write or gives `undefined` (`none`). -/
def jsGet (b : Board) (i : Int) : Option Player :=
  if 0 ≤ i ∧ i < 9 then boardGet b i.toNat
  else b.extra.lookup i

/-- The JS assignment `squares[i] = p`: in-range writes update the cell,
out-of-range writes shadow any earlier write at the same index. -/
def jsSet (b : Board) (i : Int) (p : Player) : Board :=
  if 0 ≤ i ∧ i < 9 then { b with cells := b.cells.set i.toNat (some p) }
  else { b with extra := (i, p) :: b.extra }

/-- The copy `currentSquares.slice()`: copies the array elements (indices `0` and
up), but not properties at negative indices. -/
def jsCopy (b : Board) : Board :=
  { cells := b.cells, extra := b.extra.filter (fun e => 0 ≤ e.1) }

/-- The literal `lines` array of `calculateWinner`, in source order:
three rows, three columns, two diagonals. -/
def winLines : List (Nat × Nat × Nat) :=
  [(0, 1, 2), (3, 4, 5), (6, 7, 8),
   (0, 3, 6), (1, 4, 7), (2, 5, 8),
   (0, 4, 8), (2, 4, 6)]

/-- One iteration of the `calculateWinner` loop: the test
`squares[a] && squares[a] === squares[b] && squares[a] === squares[c]`
and, on success, the returned `{ winner, line }` record. -/
def lineWin (b : Board) (t : Nat × Nat × Nat) : Option (Player × (Nat × Nat × Nat)) :=
  match boardGet b t.1 with
  | none => none
  | some p =>
    if boardGet b t.2.1 = some p ∧ boardGet b t.2.2 = some p then some (p, t)
    else none

/-- The function `calculateWinner(squares)`: scan the 8 lines in order and return the
first `{ winner, line }` match, else `null` (`none`). -/
def calculateWinner (b : Board) : Option (Player × (Nat × Nat × Nat)) :=
  winLines.findSome? (lineWin b)

/-- The test `currentSquares.every(Boolean)`: every array element is truthy.
Out-of-range elements, when present, are marks and hence truthy, and
holes are skipped by `every`, so only the 9 cells decide the result. -/
def everyBoolean (b : Board) : Bool :=
  b.cells.all Option.isSome

/-- The derived `isDraw = !winnerInfo && currentSquares.every(Boolean)`. -/
def isDraw (b : Board) : Bool :=
  (calculateWinner b).isNone && everyBoolean b

/-- The spec's derived Outcome of a board. -/
inductive Outcome
  | InProgress
  | Win (p : Player) (line : Nat × Nat × Nat)
  | Draw
deriving DecidableEq

/-- The Outcome exactly as the component derives it: `winnerInfo` first
(`calculateWinner`), then `isDraw`, else the game is in progress. -/
def outcome (b : Board) : Outcome :=
  match calculateWinner b with
  | some (p, l) => Outcome.Win p l
  | none => if everyBoolean b then Outcome.Draw else Outcome.InProgress

/-- The empty board `Array(9).fill(null)`. -/
def emptyBoard : Board :=
  { cells := List.replicate 9 none, extra := [] }

/-- The three React state hooks of `App`. -/
structure GameState where
  history : List Board
  stepNumber : Nat
  xIsNext : Bool
deriving DecidableEq

/-- The initial hook values: `[Array(9).fill(null)]`, `0`, `true`. -/
def initState : GameState :=
  { history := [emptyBoard], stepNumber := 0, xIsNext := true }

/-- The derived `const currentSquares = history[stepNumber]`. -/
def currentSquares (s : GameState) : Board :=
  s.history.getD s.stepNumber emptyBoard

/-- The handler `handleClick(i)`: if `winnerInfo || currentSquares[i]` then ignore;
otherwise copy the squares, place the mover's mark at `i`, truncate the
history after the cursor, append the new squares, move the cursor to the
new end and toggle the turn flag. -/
def handleClick (s : GameState) (i : Int) : GameState :=
  if (calculateWinner (currentSquares s)).isSome || (jsGet (currentSquares s) i).isSome
  then s
  else
    let squares := jsSet (jsCopy (currentSquares s)) i (if s.xIsNext then Player.X else Player.O)
    let newHistory := s.history.take (s.stepNumber + 1) ++ [squares]
    { history := newHistory
      stepNumber := newHistory.length - 1
      xIsNext := !s.xIsNext }

/-- The handler `jumpTo(step)`: set the cursor and recompute the turn flag from the
parity of `step`.  The history is untouched. -/
def jumpTo (s : GameState) (step : Nat) : GameState :=
  { s with stepNumber := step, xIsNext := step % 2 == 0 }

/-- The handler `handleReset()`: restore the three initial hook values. -/
def handleReset (_ : GameState) : GameState :=
  initState

/-- The handler `handleUndo()`: step the cursor back by one when possible. -/
def handleUndo (s : GameState) : GameState :=
  if 0 < s.stepNumber then
    { s with stepNumber := s.stepNumber - 1, xIsNext := (s.stepNumber - 1) % 2 == 0 }
  else s

/-- The handler `handleRedo()`: step the cursor forward by one when possible. -/
def handleRedo (s : GameState) : GameState :=
  if s.stepNumber < s.history.length - 1 then
    { s with stepNumber := s.stepNumber + 1, xIsNext := (s.stepNumber + 1) % 2 == 0 }
  else s

/-- The player shown as next by the status bar: `xIsNext ? "X" : "O"`. -/
def nextPlayer (s : GameState) : Player :=
  if s.xIsNext then Player.X else Player.O

/-- The mover the spec derives from cursor parity at step `k`. -/
def moverAt (k : Nat) : Player :=
  if k % 2 = 0 then Player.X else Player.O

/-- The commands the presentation layer can issue to the engine. -/
inductive Cmd
  | play (i : Int)
  | jump (step : Nat)
  | undo
  | redo
  | reset
deriving DecidableEq

/-- Dispatch one command to the corresponding handler. -/
def stepCmd (s : GameState) : Cmd → GameState
  | Cmd.play i => handleClick s i
  | Cmd.jump n => jumpTo s n
  | Cmd.undo => handleUndo s
  | Cmd.redo => handleRedo s
  | Cmd.reset => handleReset s

/-- The commands the UI actually issues: cell indices 0..8 and history
steps the move list offers, bare undo/redo/reset. -/
def LegalCmd (s : GameState) : Cmd → Prop
  | Cmd.play i => 0 ≤ i ∧ i ≤ 8
  | Cmd.jump n => n ≤ s.history.length - 1
  | _ => True

/-- States reachable from the initial hook values by legal commands. -/
inductive Reachable : GameState → Prop
  | init : Reachable initState
  | step (s : GameState) (c : Cmd) : Reachable s → LegalCmd s c → Reachable (stepCmd s c)

/-- Consecutive history boards differ in exactly one in-range cell, which
flips from empty to the mark of the mover at step `k`. -/
def StepOk (b b' : Board) (k : Nat) : Prop :=
  ∃ j, j < 9 ∧ boardGet b j = none ∧ boardGet b' j = some (moverAt k) ∧
    ∀ m, m < 9 → m ≠ j → boardGet b' m = boardGet b m

/-- The engine invariants: the cursor is in range, every history board
has 9 cells and no out-of-range writes, the stored turn flag matches
cursor parity, and consecutive history boards are one legal move apart. -/
structure EngineInv (s : GameState) : Prop where
  cursor_lt : s.stepNumber < s.history.length
  boards : ∀ b ∈ s.history, b.cells.length = 9 ∧ b.extra = []
  parity : s.xIsNext = (s.stepNumber % 2 == 0)
  steps : ∀ k, k + 1 < s.history.length →
    StepOk (s.history.getD k emptyBoard) (s.history.getD (k + 1) emptyBoard) k

/-- Modelled from the spec: the outcome evaluation in the spec's own
words — check the 8 fixed triples in the given order; a triple matches
when its three cells are all non-Empty and all equal; return Win of the
common mark and the first matching triple; with no match, return Draw
when all 9 cells are non-Empty, else InProgress. -/
def specLines : List (Nat × Nat × Nat) :=
  [(0, 1, 2), (3, 4, 5), (6, 7, 8),
   (0, 3, 6), (1, 4, 7), (2, 5, 8),
   (0, 4, 8), (2, 4, 6)]

/-- Spec-side triple test: all three cells non-Empty and equal. -/
def tripleFull (b : Board) (t : Nat × Nat × Nat) : Bool :=
  (boardGet b t.1).isSome && (boardGet b t.2.1).isSome && (boardGet b t.2.2).isSome &&
    (boardGet b t.1 == boardGet b t.2.1) && (boardGet b t.1 == boardGet b t.2.2)

/-- Spec-side outcome evaluation (see `specLines`). -/
def outcomeSpec (b : Board) : Outcome :=
  match specLines.find? (tripleFull b) with
  | some t => Outcome.Win ((boardGet b t.1).getD Player.X) t
  | none =>
    if (List.range 9).all (fun j => (boardGet b j).isSome) then Outcome.Draw
    else Outcome.InProgress

/-- The cosmetic theme state, toggled by the footer button. -/
inductive Theme
  | light
  | dark
deriving DecidableEq

/-- The toggle `setTheme(prev => prev === "light" ? "dark" : "light")`. -/
def toggleTheme : Theme → Theme
  | Theme.light => Theme.dark
  | Theme.dark => Theme.light

/-- The full component state: the engine state plus the theme hook. -/
structure AppState where
  game : GameState
  theme : Theme
deriving DecidableEq

/-- What a user interaction can do: issue a game command or toggle the
theme. -/
inductive AppCmd
  | game (c : Cmd)
  | toggle
deriving DecidableEq

/-- One interaction: game commands go through the engine handlers and
leave the theme alone; the theme button flips the theme and leaves the
game state alone. -/
def appStep (s : AppState) : AppCmd → AppState
  | AppCmd.game c => { s with game := stepCmd s.game c }
  | AppCmd.toggle => { s with theme := toggleTheme s.theme }

/-- Run a whole interaction sequence from a fresh component whose theme
hook starts at `t`. -/
def runApp (t : Theme) (cs : List AppCmd) : AppState :=
  cs.foldl appStep { game := initState, theme := t }

/-- The game commands among an interaction sequence, in order. -/
def gameCmds (cs : List AppCmd) : List Cmd :=
  cs.filterMap (fun c => match c with | AppCmd.game g => some g | AppCmd.toggle => none)

/-- The end-to-end scenario state: X plays 0, O plays 4, X plays 1,
O plays 3, X plays 2 — X completes the top row. -/
def winState : GameState :=
  handleClick (handleClick (handleClick (handleClick (handleClick initState 0) 4) 1) 3) 2

/-- One legal move from the initial state. -/
def oneMove : GameState :=
  stepCmd initState (Cmd.play 0)

/-- The spec's row-win sample board `[X,X,X,_,O,O,_,_,_]`. -/
def winBoard : Board :=
  { cells := [some Player.X, some Player.X, some Player.X,
      none, some Player.O, some Player.O, none, none, none]
    extra := [] }

/-! ### Helper lemmas -/

theorem jsCopy_of_extra_nil (b : Board) (h : b.extra = []) : jsCopy b = b := by
  cases b with
  | mk c e =>
    cases h
    rfl

theorem succ_mod_two_beq (n : Nat) : ((n + 1) % 2 == 0) = !(n % 2 == 0) := by
  rcases Nat.mod_two_eq_zero_or_one n with h | h
  · have h1 : (n + 1) % 2 = 1 := by omega
    rw [h, h1]
    rfl
  · have h1 : (n + 1) % 2 = 0 := by omega
    rw [h, h1]
    rfl

theorem mover_eq_moverAt {b : Bool} {k : Nat} (h : b = (k % 2 == 0)) :
    (if b then Player.X else Player.O) = moverAt k := by
  subst h
  unfold moverAt
  rcases Nat.mod_two_eq_zero_or_one k with h2 | h2 <;> simp [h2]

theorem getD_take_append_of_lt {l : List Board} {b : Board} {n k : Nat}
    (hk : k < n) (hn : n ≤ l.length) :
    (l.take n ++ [b]).getD k emptyBoard = l.getD k emptyBoard := by
  rw [List.getD_append _ _ _ _ (by rw [List.length_take]; omega)]
  rw [List.getD_eq_getElem?_getD, List.getD_eq_getElem?_getD, List.getElem?_take_of_lt hk]

theorem getD_take_append_last {l : List Board} {b : Board} {n : Nat}
    (hn : n ≤ l.length) :
    (l.take n ++ [b]).getD n emptyBoard = b := by
  have hlen : (l.take n).length = n := by rw [List.length_take]; omega
  rw [List.getD_append_right _ _ _ _ (by omega), hlen, Nat.sub_self]
  rfl

theorem currentSquares_mem {s : GameState} (h : s.stepNumber < s.history.length) :
    currentSquares s ∈ s.history := by
  unfold currentSquares
  rw [List.getD_eq_getElem _ _ h]
  exact List.getElem_mem h

theorem handleClick_of_guard (s : GameState) (i : Int)
    (h : ((calculateWinner (currentSquares s)).isSome
        || (jsGet (currentSquares s) i).isSome) = true) :
    handleClick s i = s := by
  unfold handleClick
  rw [if_pos h]

theorem handleClick_of_open (s : GameState) (i : Int)
    (hw : calculateWinner (currentSquares s) = none)
    (hc : jsGet (currentSquares s) i = none) :
    handleClick s i =
      { history := s.history.take (s.stepNumber + 1) ++
          [jsSet (jsCopy (currentSquares s)) i (if s.xIsNext then Player.X else Player.O)]
        stepNumber := (s.history.take (s.stepNumber + 1)).length
        xIsNext := !s.xIsNext } := by
  unfold handleClick
  rw [if_neg (by simp [hw, hc])]
  simp

theorem engineInv_init : EngineInv initState := by
  refine ⟨by decide, ?_, by decide, ?_⟩
  · intro b hb
    simp only [initState, List.mem_singleton] at hb
    subst hb
    exact ⟨by decide, by decide⟩
  · intro k hk
    simp only [initState, List.length_singleton] at hk
    omega

theorem engineInv_jump {s : GameState} (hI : EngineInv s) {n : Nat}
    (hn : n ≤ s.history.length - 1) : EngineInv (jumpTo s n) := by
  have hl := hI.cursor_lt
  exact ⟨by show n < s.history.length; omega, hI.boards, rfl, hI.steps⟩

theorem engineInv_undo {s : GameState} (hI : EngineInv s) : EngineInv (handleUndo s) := by
  have hl := hI.cursor_lt
  unfold handleUndo
  split
  · exact ⟨by show s.stepNumber - 1 < s.history.length; omega, hI.boards, rfl, hI.steps⟩
  · exact hI

theorem engineInv_redo {s : GameState} (hI : EngineInv s) : EngineInv (handleRedo s) := by
  unfold handleRedo
  split
  · rename_i h
    exact ⟨by show s.stepNumber + 1 < s.history.length; omega, hI.boards, rfl, hI.steps⟩
  · exact hI

theorem engineInv_play {s : GameState} (hI : EngineInv s) {i : Int}
    (h0 : 0 ≤ i) (h8 : i ≤ 8) : EngineInv (handleClick s i) := by
  by_cases hg : ((calculateWinner (currentSquares s)).isSome
      || (jsGet (currentSquares s) i).isSome) = true
  · rw [handleClick_of_guard s i hg]
    exact hI
  · rw [Bool.or_eq_true, not_or, Option.not_isSome_iff_eq_none,
      Option.not_isSome_iff_eq_none] at hg
    obtain ⟨hw, hc⟩ := hg
    have hlt := hI.cursor_lt
    obtain ⟨hcur9, hcurextra⟩ := hI.boards _ (currentSquares_mem hlt)
    have hin : 0 ≤ i ∧ i < 9 := ⟨h0, by omega⟩
    have hj9 : i.toNat < 9 := by omega
    have hsq : jsSet (jsCopy (currentSquares s)) i (if s.xIsNext then Player.X else Player.O) =
        { cells := (currentSquares s).cells.set i.toNat
            (some (if s.xIsNext then Player.X else Player.O))
          extra := [] } := by
      rw [jsCopy_of_extra_nil _ hcurextra]
      unfold jsSet
      rw [if_pos hin, hcurextra]
    have ht : (s.history.take (s.stepNumber + 1)).length = s.stepNumber + 1 := by
      rw [List.length_take]
      omega
    rw [handleClick_of_open s i hw hc, hsq]
    constructor
    · show (s.history.take (s.stepNumber + 1)).length <
        ((s.history.take (s.stepNumber + 1)) ++ _).length
      rw [List.length_append, ht]
      simp
    · intro b hb
      rcases List.mem_append.mp hb with hb | hb
      · exact hI.boards _ (List.mem_of_mem_take hb)
      · rw [List.mem_singleton] at hb
        subst hb
        refine ⟨?_, rfl⟩
        rw [List.length_set, hcur9]
    · show (!s.xIsNext) = ((s.history.take (s.stepNumber + 1)).length % 2 == 0)
      rw [ht, succ_mod_two_beq, hI.parity]
    · intro k hk
      rw [List.length_append, ht] at hk
      simp only [List.length_singleton] at hk
      rcases Nat.lt_or_ge (k + 1) (s.stepNumber + 1) with hlt1 | hge1
      · rw [getD_take_append_of_lt (by omega) (by omega),
          getD_take_append_of_lt (by omega) (by omega)]
        exact hI.steps k (by omega)
      · have hks : k = s.stepNumber := by omega
        subst hks
        rw [getD_take_append_of_lt (by omega) (by omega), getD_take_append_last (by omega)]
        refine ⟨i.toNat, hj9, ?_, ?_, ?_⟩
        · have hc2 := hc
          unfold jsGet at hc2
          rw [if_pos hin] at hc2
          exact hc2
        · show ((currentSquares s).cells.set i.toNat
              (some (if s.xIsNext then Player.X else Player.O))).getD i.toNat none =
            some (moverAt s.stepNumber)
          rw [List.getD_eq_getElem _ _ (by rw [List.length_set, hcur9]; omega)]
          rw [List.getElem_set_self]
          rw [mover_eq_moverAt hI.parity]
        · intro m hm hne
          show ((currentSquares s).cells.set i.toNat
              (some (if s.xIsNext then Player.X else Player.O))).getD m none =
            (currentSquares s).cells.getD m none
          rw [List.getD_eq_getElem _ _ (by rw [List.length_set, hcur9]; omega),
            List.getD_eq_getElem _ _ (by rw [hcur9]; omega)]
          exact List.getElem_set_ne (by omega) _

theorem reachable_engineInv {s : GameState} (h : Reachable s) : EngineInv s := by
  induction h with
  | init => exact engineInv_init
  | step s c hr hl ih =>
    cases c with
    | play i => exact engineInv_play ih hl.1 hl.2
    | jump n => exact engineInv_jump ih hl
    | undo => exact engineInv_undo ih
    | redo => exact engineInv_redo ih
    | reset => exact engineInv_init

theorem lineWin_eq_tripleFull (b : Board) (t : Nat × Nat × Nat) :
    lineWin b t =
      if tripleFull b t then some ((boardGet b t.1).getD Player.X, t) else none := by
  unfold lineWin tripleFull
  rcases h1 : boardGet b t.1 with _ | p
  · simp [h1]
  · rcases h2 : boardGet b t.2.1 with _ | q
    · simp [h1, h2]
    · rcases h3 : boardGet b t.2.2 with _ | r
      · simp [h1, h2, h3]
      · simp only [h1, h2, h3]
        cases p <;> cases q <;> cases r <;> simp

theorem findSome?_lineWin_eq (b : Board) (l : List (Nat × Nat × Nat)) :
    l.findSome? (lineWin b) =
      (l.find? (tripleFull b)).map (fun t => ((boardGet b t.1).getD Player.X, t)) := by
  induction l with
  | nil => rfl
  | cons t l ih =>
    rw [List.findSome?_cons, List.find?_cons, lineWin_eq_tripleFull]
    by_cases h : tripleFull b t
    · simp [h]
    · simp [h, ih]

theorem all_isSome_eq_range9 (l : List (Option Player)) (h : l.length = 9) :
    l.all Option.isSome = (List.range 9).all (fun j => (l.getD j none).isSome) := by
  rcases l with _ | ⟨a0, _ | ⟨a1, _ | ⟨a2, _ | ⟨a3, _ | ⟨a4, _ | ⟨a5, _ | ⟨a6, _ | ⟨a7, _ | ⟨a8, _ | ⟨a9, tl⟩⟩⟩⟩⟩⟩⟩⟩⟩⟩ <;>
    first
    | rfl
    | simp_all

theorem outcome_eq_outcomeSpec (b : Board) (h9 : b.cells.length = 9) :
    outcome b = outcomeSpec b := by
  unfold outcome outcomeSpec calculateWinner
  rw [show winLines = specLines from rfl, findSome?_lineWin_eq]
  cases hf : specLines.find? (tripleFull b) with
  | none =>
    simp only [Option.map_none']
    unfold everyBoolean
    rw [all_isSome_eq_range9 b.cells h9]
    rfl
  | some t =>
    simp only [Option.map_some']

theorem calculateWinner_eq_none_of_inProgress {b : Board}
    (h : outcome b = Outcome.InProgress) : calculateWinner b = none := by
  unfold outcome at h
  cases hc : calculateWinner b with
  | none => rfl
  | some v =>
    obtain ⟨p, l⟩ := v
    rw [hc] at h
    exact Outcome.noConfusion h

theorem boardGet_jsSet_self (b : Board) (i : Int) (p : Player)
    (hin : 0 ≤ i ∧ i < 9) (hlen : i.toNat < b.cells.length) :
    boardGet (jsSet b i p) i.toNat = some p := by
  unfold jsSet boardGet
  rw [if_pos hin]
  show (b.cells.set i.toNat (some p)).getD i.toNat none = some p
  rw [List.getD_eq_getElem _ _ (by rw [List.length_set]; omega), List.getElem_set_self]

theorem boardGet_jsSet_ne (b : Board) (i : Int) (p : Player) (m : Nat)
    (hin : 0 ≤ i ∧ i < 9) (hne : m ≠ i.toNat) :
    boardGet (jsSet b i p) m = boardGet b m := by
  unfold jsSet boardGet
  rw [if_pos hin]
  show (b.cells.set i.toNat (some p)).getD m none = b.cells.getD m none
  rcases Nat.lt_or_ge m b.cells.length with hm | hm
  · rw [List.getD_eq_getElem _ _ (by rw [List.length_set]; omega),
      List.getD_eq_getElem _ _ hm]
    exact List.getElem_set_ne (by omega) _
  · rw [List.getD_eq_default _ _ (by rw [List.length_set]; omega),
      List.getD_eq_default _ _ hm]

theorem runApp_game_eq (cs : List AppCmd) :
    ∀ (g : GameState) (t : Theme),
      (cs.foldl appStep { game := g, theme := t }).game = (gameCmds cs).foldl stepCmd g := by
  induction cs with
  | nil => intro g t; rfl
  | cons c cs ih =>
    intro g t
    cases c with
    | game c' =>
      show (cs.foldl appStep { game := stepCmd g c', theme := t }).game = _
      rw [ih]
      rfl
    | toggle =>
      show (cs.foldl appStep { game := g, theme := toggleTheme t }).game = _
      rw [ih]
      rfl

/-! ### Claim theorems -/

/-- Claim C1: for every state (history, cursor) whose board at the cursor
has Outcome InProgress and whose target cell is Empty, `play(cellIndex)`
truncates the history to entries 0..cursor, appends a new board equal to
the board at the cursor except `cellIndex` set to the mover's mark (the
mover being PlayerX iff the cursor is even), and sets the cursor to
`len(history) - 1`; and after `play, play, undo, play(different cell)`
from a fresh engine, `len(history) = 3`. -/
theorem claim_C1 :
    (∀ (s : GameState) (i : Int),
      s.stepNumber < s.history.length →
      (currentSquares s).cells.length = 9 →
      s.xIsNext = (s.stepNumber % 2 == 0) →
      0 ≤ i → i ≤ 8 →
      outcome (currentSquares s) = Outcome.InProgress →
      jsGet (currentSquares s) i = none →
      ∃ nb,
        (handleClick s i).history = s.history.take (s.stepNumber + 1) ++ [nb] ∧
        boardGet nb i.toNat = some (moverAt s.stepNumber) ∧
        (∀ m, m < 9 → m ≠ i.toNat → boardGet nb m = boardGet (currentSquares s) m) ∧
        (handleClick s i).stepNumber = (handleClick s i).history.length - 1) ∧
    (handleClick (handleUndo (handleClick (handleClick initState 0) 1)) 2).history.length = 3 := by
  constructor
  · intro s i hlt h9 hpar h0 h8 hout hcell
    have hw := calculateWinner_eq_none_of_inProgress hout
    have hin : 0 ≤ i ∧ i < 9 := ⟨h0, by omega⟩
    rw [handleClick_of_open s i hw hcell]
    refine ⟨jsSet (jsCopy (currentSquares s)) i (if s.xIsNext then Player.X else Player.O),
      rfl, ?_, ?_, ?_⟩
    · rw [boardGet_jsSet_self _ _ _ hin (by show i.toNat < (currentSquares s).cells.length; omega),
        mover_eq_moverAt hpar]
    · intro m hm hne
      exact boardGet_jsSet_ne _ _ _ _ hin hne
    · show (s.history.take (s.stepNumber + 1)).length =
        ((s.history.take (s.stepNumber + 1)) ++ _).length - 1
      rw [List.length_append]
      simp
  · decide

/-- Claim C1 witness: the general part applied after one move of a fresh
game, placing O at cell 4. -/
theorem claim_C1_witness :
    outcome (currentSquares (handleClick initState 0)) = Outcome.InProgress ∧
    jsGet (currentSquares (handleClick initState 0)) 4 = none ∧
    ∃ nb,
      (handleClick (handleClick initState 0) 4).history =
        (handleClick initState 0).history.take ((handleClick initState 0).stepNumber + 1) ++ [nb] ∧
      boardGet nb (4 : Int).toNat = some (moverAt (handleClick initState 0).stepNumber) ∧
      (∀ m, m < 9 → m ≠ (4 : Int).toNat →
        boardGet nb m = boardGet (currentSquares (handleClick initState 0)) m) ∧
      (handleClick (handleClick initState 0) 4).stepNumber =
        (handleClick (handleClick initState 0) 4).history.length - 1 :=
  ⟨by decide, by decide,
    claim_C1.1 (handleClick initState 0) 4 (by decide) (by decide) (by decide)
      (by decide) (by decide) (by decide) (by decide)⟩

/-- Claim C2: for every 9-cell board, the outcome evaluation of the code
(`calculateWinner` followed by the all-cells-full draw test) equals the
spec's evaluation: scan the 8 fixed triples (rows, columns, diagonals) in
the fixed order, return Win of the common mark and the first triple whose
three cells are non-Empty and equal, else Draw when all 9 cells are
non-Empty, else InProgress. -/
theorem claim_C2 (b : Board) (h9 : b.cells.length = 9) : outcome b = outcomeSpec b :=
  outcome_eq_outcomeSpec b h9

/-- Claim C2 witness: the evaluation agreement at the spec's row-win
sample board `[X,X,X,_,O,O,_,_,_]`. -/
theorem claim_C2_witness :
    winBoard.cells.length = 9 ∧ outcome winBoard = outcomeSpec winBoard ∧
    outcome winBoard = Outcome.Win Player.X (0, 1, 2) :=
  ⟨by decide, claim_C2 winBoard (by decide), by decide⟩

/-- Claim C3: for every state, `play(cellIndex)` with `cellIndex` in 0..8
is a silent no-op (the whole state, hence history, cursor and the derived
turn, is unchanged) whenever the board at the cursor has a terminal
Outcome (Win or Draw) or the target cell is not Empty; in particular once
the Outcome is terminal no play mutates the history. -/
theorem claim_C3 (s : GameState) (i : Int)
    (h9 : (currentSquares s).cells.length = 9)
    (h0 : 0 ≤ i) (h8 : i ≤ 8)
    (h : outcome (currentSquares s) ≠ Outcome.InProgress ∨ jsGet (currentSquares s) i ≠ none) :
    handleClick s i = s := by
  apply handleClick_of_guard
  rcases h with h | h
  · unfold outcome at h
    cases hc : calculateWinner (currentSquares s) with
    | some v => rfl
    | none =>
      rw [hc] at h
      by_cases he : everyBoolean (currentSquares s)
      · have hb : (boardGet (currentSquares s) i.toNat).isSome := by
          unfold everyBoolean at he
          rw [List.all_eq_true] at he
          unfold boardGet
          have hlen : i.toNat < (currentSquares s).cells.length := by omega
          rw [List.getD_eq_getElem _ _ hlen]
          exact he _ (List.getElem_mem hlen)
        have hj : (jsGet (currentSquares s) i).isSome := by
          unfold jsGet
          rw [if_pos ⟨h0, by omega⟩]
          exact hb
        rw [hj]
        simp
      · exfalso
        apply h
        simp [he]
  · have hj : (jsGet (currentSquares s) i).isSome := by
      cases ho : jsGet (currentSquares s) i with
      | none => exact absurd ho h
      | some p => rfl
    rw [hj]
    simp

/-- Claim C3 witness: after X completes the top row, a play at the free
cell 5 is ignored. -/
theorem claim_C3_witness :
    outcome (currentSquares winState) ≠ Outcome.InProgress ∧
    handleClick winState 5 = winState :=
  ⟨by decide, claim_C3 winState 5 (by decide) (by decide) (by decide) (Or.inl (by decide))⟩

/-- Claim C4: in every state reachable by legal commands, the stored
`xIsNext` flag equals `stepNumber % 2 == 0`, i.e. the player to move is
PlayerX iff the cursor is even. -/
theorem claim_C4 (s : GameState) (h : Reachable s) :
    s.xIsNext = (s.stepNumber % 2 == 0) ∧ (nextPlayer s = Player.X ↔ s.stepNumber % 2 = 0) := by
  have hI := reachable_engineInv h
  refine ⟨hI.parity, ?_⟩
  unfold nextPlayer
  rw [hI.parity]
  rcases Nat.mod_two_eq_zero_or_one s.stepNumber with h2 | h2 <;> simp [h2]

/-- Claim C4 witness: the parity invariant at the reachable state after
one move (cursor 1, O to move). -/
theorem claim_C4_witness :
    Reachable oneMove ∧ oneMove.xIsNext = (oneMove.stepNumber % 2 == 0) ∧
    (nextPlayer oneMove = Player.X ↔ oneMove.stepNumber % 2 = 0) :=
  have hr : Reachable oneMove :=
    Reachable.step initState (Cmd.play 0) Reachable.init (by refine ⟨?_, ?_⟩ <;> decide)
  ⟨hr, claim_C4 oneMove hr⟩

/-- Claim C5: in every state reachable by legal commands, consecutive
history entries `history[k]` and `history[k+1]` differ in exactly one
cell, which flips from Empty to the mark of the mover at step `k`
(PlayerX iff `k` is even) — see `StepOk`. -/
theorem claim_C5 (s : GameState) (h : Reachable s) (k : Nat)
    (hk : k + 1 < s.history.length) :
    StepOk (s.history.getD k emptyBoard) (s.history.getD (k + 1) emptyBoard) k :=
  (reachable_engineInv h).steps k hk

/-- Claim C5 witness: the one-cell-difference property between the two
history entries of the reachable state after one move. -/
theorem claim_C5_witness :
    Reachable oneMove ∧ 0 + 1 < oneMove.history.length ∧
    StepOk (oneMove.history.getD 0 emptyBoard) (oneMove.history.getD 1 emptyBoard) 0 :=
  have hr : Reachable oneMove :=
    Reachable.step initState (Cmd.play 0) Reachable.init (by refine ⟨?_, ?_⟩ <;> decide)
  ⟨hr, by decide, claim_C5 oneMove hr 0 (by decide)⟩

/-- Claim C6: for every state, `undo()` equals `jumpTo(cursor - 1)` when
`cursor > 0` and is a bit-for-bit no-op otherwise; `redo()` equals
`jumpTo(cursor + 1)` when `cursor < len(history) - 1` and is a no-op
otherwise; neither mutates the history. -/
theorem claim_C6 (s : GameState) :
    (0 < s.stepNumber → handleUndo s = jumpTo s (s.stepNumber - 1)) ∧
    (s.stepNumber = 0 → handleUndo s = s) ∧
    (s.stepNumber < s.history.length - 1 → handleRedo s = jumpTo s (s.stepNumber + 1)) ∧
    (¬ s.stepNumber < s.history.length - 1 → handleRedo s = s) ∧
    (handleUndo s).history = s.history ∧ (handleRedo s).history = s.history := by
  refine ⟨?_, ?_, ?_, ?_, ?_, ?_⟩
  · intro h
    unfold handleUndo jumpTo
    rw [if_pos h]
  · intro h
    unfold handleUndo
    rw [if_neg (by omega)]
  · intro h
    unfold handleRedo jumpTo
    rw [if_pos h]
  · intro h
    unfold handleRedo
    rw [if_neg h]
  · unfold handleUndo
    split <;> rfl
  · unfold handleRedo
    split <;> rfl

/-- Claim C6 witness: undo at the end of the five-move win game equals a
jump to step 4. -/
theorem claim_C6_witness :
    0 < winState.stepNumber ∧
    handleUndo winState = jumpTo winState (winState.stepNumber - 1) :=
  ⟨by decide, (claim_C6 winState).1 (by decide)⟩

/-- Claim C7: for every state, `reset()` unconditionally restores the
exact initial state: history is the one-element sequence holding the
all-Empty board, the cursor is 0, and PlayerX is to move. -/
theorem claim_C7 (s : GameState) :
    handleReset s = initState ∧ initState.history = [emptyBoard] ∧
    initState.stepNumber = 0 ∧ initState.xIsNext = true ∧ nextPlayer initState = Player.X :=
  ⟨rfl, rfl, rfl, rfl, rfl⟩

/-- Claim C8 counterexample: `jumpTo` neither clamps nor rejects: from
the initial state (history length 1), `jumpTo(5)` sets the cursor to 5,
violating `cursor ≤ len(history) - 1`. -/
theorem claim_C8_counterexample :
    (jumpTo initState 5).stepNumber = 5 ∧
    (jumpTo initState 5).history.length - 1 = 0 ∧
    ¬ (jumpTo initState 5).stepNumber ≤ (jumpTo initState 5).history.length - 1 := by
  decide

/-- Claim C8 amended: `jumpTo(step)` stores `step` as the cursor
unconditionally, with no clamping or rejection, and leaves the history
unchanged; hence the invariant `cursor ≤ len(history) - 1` holds after
the call exactly when the caller's `step` was in range, which the UI
guarantees. -/
theorem claim_C8_amended (s : GameState) (n : Nat) :
    (jumpTo s n).history = s.history ∧ (jumpTo s n).stepNumber = n ∧
    ((jumpTo s n).stepNumber ≤ (jumpTo s n).history.length - 1 ↔ n ≤ s.history.length - 1) :=
  ⟨rfl, rfl, Iff.rfl⟩

/-- Claim C9: noninterference of theme: two interaction sequences with
the same game commands but arbitrarily different theme toggles and
initial themes end in the same game state, and hence the same derived
board, Outcome (with its winning line) and turn. -/
theorem claim_C9 (cs1 cs2 : List AppCmd) (t1 t2 : Theme)
    (h : gameCmds cs1 = gameCmds cs2) :
    (runApp t1 cs1).game = (runApp t2 cs2).game ∧
    currentSquares (runApp t1 cs1).game = currentSquares (runApp t2 cs2).game ∧
    calculateWinner (currentSquares (runApp t1 cs1).game) =
      calculateWinner (currentSquares (runApp t2 cs2).game) ∧
    outcome (currentSquares (runApp t1 cs1).game) =
      outcome (currentSquares (runApp t2 cs2).game) ∧
    nextPlayer (runApp t1 cs1).game = nextPlayer (runApp t2 cs2).game := by
  have hg : (runApp t1 cs1).game = (runApp t2 cs2).game := by
    unfold runApp
    rw [runApp_game_eq, runApp_game_eq, h]
  exact ⟨hg, by rw [hg], by rw [hg], by rw [hg], by rw [hg]⟩

/-- Claim C9 witness: a run that plays cell 0 with no theme activity and
a run that toggles the theme around the same move, from different
initial themes, end in the same game state. -/
theorem claim_C9_witness :
    gameCmds [AppCmd.game (Cmd.play 0)] =
      gameCmds [AppCmd.toggle, AppCmd.game (Cmd.play 0), AppCmd.toggle] ∧
    (runApp Theme.light [AppCmd.game (Cmd.play 0)]).game =
      (runApp Theme.dark [AppCmd.toggle, AppCmd.game (Cmd.play 0), AppCmd.toggle]).game :=
  ⟨by decide,
    (claim_C9 [AppCmd.game (Cmd.play 0)] [AppCmd.toggle, AppCmd.game (Cmd.play 0), AppCmd.toggle]
      Theme.light Theme.dark (by decide)).1⟩

/-- Claim C10: for every cell index outside 0..8 on an in-progress board
with no prior write at that index, `play(cellIndex)` is not ignored: the
occupied-cell guard reads the out-of-bounds position as empty, a new
history entry is appended, the cursor advances, the turn toggles, the
9 cells of the new board equal those of the previous board, and the
mark lands outside them (readable back at the same index). -/
theorem claim_C10 (s : GameState) (i : Int)
    (hlt : s.stepNumber < s.history.length)
    (hrange : i < 0 ∨ 8 < i)
    (hout : outcome (currentSquares s) = Outcome.InProgress)
    (hfresh : (currentSquares s).extra.lookup i = none) :
    (handleClick s i).history =
      s.history.take (s.stepNumber + 1) ++
        [jsSet (jsCopy (currentSquares s)) i (if s.xIsNext then Player.X else Player.O)] ∧
    (handleClick s i).history.length = s.stepNumber + 2 ∧
    (handleClick s i).stepNumber = s.stepNumber + 1 ∧
    (handleClick s i).xIsNext = (!s.xIsNext) ∧
    (jsSet (jsCopy (currentSquares s)) i (if s.xIsNext then Player.X else Player.O)).cells =
      (currentSquares s).cells ∧
    jsGet (jsSet (jsCopy (currentSquares s)) i (if s.xIsNext then Player.X else Player.O)) i =
      some (if s.xIsNext then Player.X else Player.O) := by
  have hnotin : ¬ (0 ≤ i ∧ i < 9) := by omega
  have hw := calculateWinner_eq_none_of_inProgress hout
  have hc : jsGet (currentSquares s) i = none := by
    unfold jsGet
    rw [if_neg hnotin]
    exact hfresh
  have ht : (s.history.take (s.stepNumber + 1)).length = s.stepNumber + 1 := by
    rw [List.length_take]
    omega
  rw [handleClick_of_open s i hw hc]
  refine ⟨rfl, ?_, ?_, rfl, ?_, ?_⟩
  · show ((s.history.take (s.stepNumber + 1)) ++ _).length = s.stepNumber + 2
    rw [List.length_append, ht]
    rfl
  · exact ht
  · unfold jsSet
    rw [if_neg hnotin]
    rfl
  · unfold jsSet
    rw [if_neg hnotin]
    unfold jsGet
    rw [if_neg hnotin]
    exact List.lookup_cons_self

/-- Claim C10 witness: a play at index 9 from the fresh engine appends a
second history entry whose 9 cells are still all empty, with the X mark
stored at index 9. -/
theorem claim_C10_witness :
    outcome (currentSquares initState) = Outcome.InProgress ∧
    (handleClick initState 9).history.length = 0 + 2 ∧
    (handleClick initState 9).stepNumber = 0 + 1 ∧
    (handleClick initState 9).xIsNext = (!initState.xIsNext) :=
  have h := claim_C10 initState 9 (by decide) (Or.inr (by decide)) (by decide) (by decide)
  ⟨by decide, h.2.1, h.2.2.1, h.2.2.2.1⟩
